import Mathlib

/-!
Verification of the kalerator layout-to-topology engine
(`src/kalerator/keyboard.py`) against its specification.

The development shallowly embeds the code of `keyboard.py`: pure Python
functions become Lean functions on `String`, `ℚ`, `Nat` and lists, the
stateful parsing/traversal loops become explicit state passing, and the one
runtime-failure path (an attribute access on a popped key-name string in
`Keyboard.column_scr`) is modelled with `Except`.

Python string primitives (`str.upper`, `str.split`, `str.replace`, `str(int)`,
`'\n'.join`, substring tests) are modelled by list-of-character functions so
that every definition evaluates inside the kernel.  Code of the repository
that is not under `src/` (`keyboard_key.py`, `functions.py`, `config.py`) is
modelled from the spec where a claim needs it; each such definition carries a
doc comment starting with `Modelled from the spec:`.
-/

namespace Kalerator

/-! ### Python string primitives, modelled on `List Char` -/

/-- Character for a decimal digit, as produced by Python `str` on a digit
(code point 48 + d for d < 10). -/
def digitChar (d : Nat) : Char := Char.ofNat (48 + d)

/-- Inverse of `digitChar` on actual digits. -/
def charDigit (c : Char) : Nat := c.toNat - 48

/-- Fuel-bounded big-endian decimal digit expansion of a positive number.
Fuel `n` is enough for the number `n` itself because `n / 10 < n`. -/
def natToStrAux : Nat → Nat → List Char
  | 0, _ => []
  | _ + 1, 0 => []
  | fuel + 1, m + 1 => natToStrAux fuel ((m + 1) / 10) ++ [digitChar ((m + 1) % 10)]

/-- Model of Python `str` on a non-negative integer. -/
def natToStr (n : Nat) : String :=
  if n = 0 then "0" else String.mk (natToStrAux n n)

/-- Model of Python `label.split('\n', 1)[0]`: everything before the first
newline. -/
def firstLine (s : String) : String :=
  String.mk (s.data.takeWhile (fun c => !(c == '\n')))

/-- Model of Python `str.upper` (ASCII letters; all labels appearing in the
translation table are unaffected by upper-casing, as in Python). -/
def pyUpper (s : String) : String := String.mk (s.data.map Char.toUpper)

/-- Model of Python `str.isdigit`: non-empty and all characters digits. -/
def isDigitStr (s : String) : Bool := !s.data.isEmpty && s.data.all Char.isDigit

/-- Whether `pat` is a prefix of the second list (Python slicing test). -/
def listStartsWith : List Char → List Char → Bool
  | [], _ => true
  | _ :: _, [] => false
  | p :: ps, c :: cs => p == c && listStartsWith ps cs

/-- Model of Python `pat in s` (substring containment). -/
def listHasSub (pat : List Char) : List Char → Bool
  | [] => pat.isEmpty
  | c :: cs => listStartsWith pat (c :: cs) || listHasSub pat cs

/-- Model of Python `'\n'.join(...)` (and of `str.join` generally). -/
def joinWith (sep : String) : List String → String
  | [] => ""
  | [s] => s
  | s :: rest => s ++ sep ++ joinWith sep rest

/-- Model of Python `str.split(sep)` for a one-character separator. -/
def splitOnCharList (sep : Char) : List Char → List (List Char)
  | [] => [[]]
  | c :: cs =>
    let rest := splitOnCharList sep cs
    if c == sep then [] :: rest
    else
      match rest with
      | [] => [[c]]
      | r :: rs => (c :: r) :: rs

/-- Model of Python `str.replace` (left-to-right, non-overlapping) for a
non-empty pattern; an empty pattern leaves the text unchanged. -/
def replaceSub (pat repl : List Char) : List Char → List Char
  | [] => []
  | c :: cs =>
    if h : pat ≠ [] ∧ listStartsWith pat (c :: cs) = true then
      repl ++ replaceSub pat repl ((c :: cs).drop pat.length)
    else
      c :: replaceSub pat repl cs
termination_by l => l.length
decreasing_by
  · simp only [List.length_drop]
    have hp : 0 < pat.length := List.length_pos.mpr h.1
    simp only [List.length_cons]
    omega
  · simp only [List.length_cons]
    omega

/-! ### Facts about `natToStr`: it renders decimal digits and is injective -/

theorem natToStrAux_eq_digits :
    ∀ fuel n, n ≤ fuel →
      natToStrAux fuel n = ((Nat.digits 10 n).reverse).map digitChar := by
  intro fuel
  induction fuel with
  | zero =>
    intro n hn
    have : n = 0 := Nat.le_zero.mp hn
    subst this
    simp [natToStrAux]
  | succ fuel ih =>
    intro n hn
    match n with
    | 0 => simp [natToStrAux]
    | m + 1 =>
      have hdiv : (m + 1) / 10 ≤ fuel := by
        have h1 : (m + 1) / 10 < m + 1 := Nat.div_lt_self (Nat.succ_pos m) (by norm_num)
        omega
      have hd : Nat.digits 10 (m + 1) = (m + 1) % 10 :: Nat.digits 10 ((m + 1) / 10) :=
        Nat.digits_def' (by norm_num) (Nat.succ_pos m)
      rw [natToStrAux, ih _ hdiv, hd]
      simp

theorem charDigit_digitChar : ∀ d, d < 10 → charDigit (digitChar d) = d := by decide

theorem map_charDigit_map_digitChar :
    ∀ l : List Nat, (∀ d ∈ l, d < 10) → (l.map digitChar).map charDigit = l := by
  intro l
  induction l with
  | nil => intro _; rfl
  | cons d rest ih =>
    intro h
    simp only [List.map_cons, List.cons.injEq]
    constructor
    · exact charDigit_digitChar d (h d (List.mem_cons_self d rest))
    · exact ih (fun x hx => h x (List.mem_cons_of_mem d hx))

theorem digits_of_map_digitChar_eq {m n : Nat}
    (h : ((Nat.digits 10 m).reverse).map digitChar = ((Nat.digits 10 n).reverse).map digitChar) :
    m = n := by
  have hm : ∀ d ∈ (Nat.digits 10 m).reverse, d < 10 := by
    intro d hd
    exact Nat.digits_lt_base (by norm_num) (List.mem_reverse.mp hd)
  have hn : ∀ d ∈ (Nat.digits 10 n).reverse, d < 10 := by
    intro d hd
    exact Nat.digits_lt_base (by norm_num) (List.mem_reverse.mp hd)
  have h2 : (Nat.digits 10 m).reverse = (Nat.digits 10 n).reverse := by
    calc (Nat.digits 10 m).reverse
        = (((Nat.digits 10 m).reverse).map digitChar).map charDigit :=
          (map_charDigit_map_digitChar _ hm).symm
      _ = (((Nat.digits 10 n).reverse).map digitChar).map charDigit := by rw [h]
      _ = (Nat.digits 10 n).reverse := map_charDigit_map_digitChar _ hn
  have h3 : Nat.digits 10 m = Nat.digits 10 n := List.reverse_injective h2
  calc m = Nat.ofDigits 10 (Nat.digits 10 m) := (Nat.ofDigits_digits 10 m).symm
    _ = Nat.ofDigits 10 (Nat.digits 10 n) := by rw [h3]
    _ = n := Nat.ofDigits_digits 10 n

theorem natToStr_injective : Function.Injective natToStr := by
  intro m n h
  unfold natToStr at h
  by_cases hm : m = 0 <;> by_cases hn : n = 0
  · omega
  · exfalso
    rw [if_pos hm, if_neg hn] at h
    have hdata : ['0'] = natToStrAux n n := by
      have := congrArg String.data h
      simpa using this
    rw [natToStrAux_eq_digits n n (le_refl n)] at hdata
    have : ([0] : List Nat) = (Nat.digits 10 n).reverse := by
      have hb : ∀ d ∈ (Nat.digits 10 n).reverse, d < 10 := fun d hd =>
        Nat.digits_lt_base (by norm_num) (List.mem_reverse.mp hd)
      calc ([0] : List Nat) = (([0] : List Nat).map digitChar).map charDigit := by decide
        _ = (((Nat.digits 10 n).reverse).map digitChar).map charDigit := by
            have : ([0] : List Nat).map digitChar = ['0'] := by decide
            rw [this, hdata]
        _ = (Nat.digits 10 n).reverse := map_charDigit_map_digitChar _ hb
    have hdig : Nat.digits 10 n = [0] := by
      have := congrArg List.reverse this
      simpa using this.symm
    have : n = 0 := by
      have := Nat.ofDigits_digits 10 n
      rw [hdig] at this
      simpa using this.symm
    exact hn this
  · exfalso
    rw [if_neg hm, if_pos hn] at h
    have hdata : natToStrAux m m = ['0'] := by
      have := congrArg String.data h
      simpa using this
    rw [natToStrAux_eq_digits m m (le_refl m)] at hdata
    have : (Nat.digits 10 m).reverse = ([0] : List Nat) := by
      have hb : ∀ d ∈ (Nat.digits 10 m).reverse, d < 10 := fun d hd =>
        Nat.digits_lt_base (by norm_num) (List.mem_reverse.mp hd)
      calc (Nat.digits 10 m).reverse
          = (((Nat.digits 10 m).reverse).map digitChar).map charDigit :=
            (map_charDigit_map_digitChar _ hb).symm
        _ = (([0] : List Nat).map digitChar).map charDigit := by
            have h0 : ([0] : List Nat).map digitChar = ['0'] := by decide
            rw [h0, hdata]
        _ = ([0] : List Nat) := by decide
    have hdig : Nat.digits 10 m = [0] := by
      have := congrArg List.reverse this
      simpa using this
    have : m = 0 := by
      have := Nat.ofDigits_digits 10 m
      rw [hdig] at this
      simpa using this.symm
    exact hm this
  · rw [if_neg hm, if_neg hn] at h
    have hdata : natToStrAux m m = natToStrAux n n := by
      have := congrArg String.data h
      simpa using this
    rw [natToStrAux_eq_digits m m (le_refl m), natToStrAux_eq_digits n n (le_refl n)] at hdata
    exact digits_of_map_digitChar_eq hdata

theorem string_append_left_cancel {a b c : String} (h : a ++ b = a ++ c) : b = c := by
  have := congrArg String.data h
  simp only [String.data_append] at this
  have h2 := List.append_cancel_left this
  cases b; cases c
  exact congrArg String.mk h2

/-! ### Label Translator (`keyboard.py` lines 10-42 and 121-143) -/

/-- Symbol-to-name table `key_translation` (keyboard.py lines 10-42), in source
order.  Python consults it as a dict keyed by exact strings. -/
def key_translation : List (String × String) :=
  [("", "SPACE"),
   ("←", "LEFT"),
   ("↑", "UP"),
   ("→", "RIGHT"),
   ("↓", "DOWN"),
   ("~", "GRAVE"),
   ("¬", "GRAVE"),
   ("!", "1"),
   ("@", "2"),
   ("#", "3"),
   ("£", "3"),
   ("$", "4"),
   ("%", "5"),
   ("^", "6"),
   ("&", "7"),
   ("*", "8"),
   ("(", "9"),
   (")", "0"),
   ("_", "DASH"),
   ("+", "EQUAL"),
   ("\x7b", "LBRACKET"),
   ("\x7d", "RBRACKET"),
   ("|", "BACKSLASH"),
   (":", "SEMICOLON"),
   ("\"", "QUOTE"),
   ("<", "COMMA"),
   (">", "PERIOD"),
   ("?", "SLASH"),
   ("/", "KP_SLASH"),
   ("-", "KP_DASH"),
   (".", "KP_DEL")]

/-- Candidate name before collision resolution (`translate_label` lines
124-129): upper-case the first line of the label, special-case a label that is
exactly `*`, then substitute through `key_translation`. -/
def canonical_name (label : String) : String :=
  let key_name := pyUpper (firstLine label)
  let key_name := if label = "*" then "KP_ASTERISK" else key_name
  match key_translation.lookup key_name with
  | some mapped => mapped
  | none => key_name

/-- The `while new_key_name in self` probe loop of `translate_label` (lines
137-139), with explicit fuel standing in for the unbounded Python loop.  Each
iteration recomputes `new := base ++ str i` and increments `i`; the loop stops
at the first probe not present in `names`.  `collisionLoop_found` below shows
fuel `names.length + 2` always suffices, so the `none` case is unreachable at
the call sites in `translate_label`. -/
def collisionLoop (names : List String) (base : String) : Nat → String → Nat → Option String
  | 0, _, _ => none
  | fuel + 1, new, i =>
    if names.contains new then collisionLoop names base fuel (base ++ natToStr i) (i + 1)
    else some new

/-- Model of `Keyboard.translate_label` (lines 121-143).  `names` stands for
the keys already inserted in the Keyboard dict (`self`).  The returned Bool
records whether the duplicate-rename branch ran, i.e. whether the non-fatal
`logging.warn` rename warning was emitted. -/
def translate_label (names : List String) (label : String) : String × Bool :=
  let key_name := canonical_name label
  if names.contains key_name then
    if isDigitStr key_name then
      let kpName := "KP_" ++ key_name
      ((collisionLoop names kpName (names.length + 2) kpName 2).getD kpName, true)
    else
      ((collisionLoop names key_name (names.length + 2) (key_name ++ natToStr 2) 2).getD
        key_name, true)
  else (key_name, false)

/-! ### Collision loop lemmas -/

theorem collisionLoop_some_not_mem (names : List String) (base : String) :
    ∀ fuel new i v, collisionLoop names base fuel new i = some v → v ∉ names := by
  intro fuel
  induction fuel with
  | zero => intro new i v h; simp [collisionLoop] at h
  | succ fuel ih =>
    intro new i v h
    rw [collisionLoop] at h
    by_cases hc : names.contains new
    · rw [if_pos hc] at h
      exact ih _ _ _ h
    · rw [if_neg hc] at h
      have hv : new = v := by simpa using h
      subst hv
      simpa using hc

theorem collisionLoop_core (names : List String) (base : String) :
    ∀ fuel i v,
      collisionLoop names base fuel (base ++ natToStr i) (i + 1) = some v →
      ∃ j, i ≤ j ∧ v = base ++ natToStr j ∧ v ∉ names ∧
        ∀ k, i ≤ k → k < j → (base ++ natToStr k) ∈ names := by
  intro fuel
  induction fuel with
  | zero => intro i v h; simp [collisionLoop] at h
  | succ fuel ih =>
    intro i v h
    rw [collisionLoop] at h
    by_cases hc : names.contains (base ++ natToStr i)
    · rw [if_pos hc] at h
      obtain ⟨j, hij, hv, hnm, hmin⟩ := ih (i + 1) v h
      refine ⟨j, by omega, hv, hnm, ?_⟩
      intro k hk hkj
      by_cases hki : k = i
      · subst hki
        simpa using hc
      · exact hmin k (by omega) hkj
    · rw [if_neg hc] at h
      have hv : base ++ natToStr i = v := by simpa using h
      refine ⟨i, le_refl i, hv.symm, ?_, ?_⟩
      · rw [← hv]; simpa using hc
      · intro k hk hkj; omega

theorem collisionLoop_none_head (names : List String) (base : String) :
    ∀ fuel new i, 1 ≤ fuel → collisionLoop names base fuel new i = none →
      names.contains new = true := by
  intro fuel new i hf h
  match fuel, hf with
  | f + 1, _ =>
    rw [collisionLoop] at h
    by_cases hc : names.contains new
    · exact hc
    · rw [if_neg hc] at h
      simp at h

theorem collisionLoop_none_mem (names : List String) (base : String) :
    ∀ fuel new i, collisionLoop names base fuel new i = none →
      ∀ k, i ≤ k → k + 1 < i + fuel → (base ++ natToStr k) ∈ names := by
  intro fuel
  induction fuel with
  | zero => intro new i _ k hk hlt; omega
  | succ fuel ih =>
    intro new i h k hk hlt
    rw [collisionLoop] at h
    by_cases hc : names.contains new
    · rw [if_pos hc] at h
      by_cases hki : k = i
      · subst hki
        have hf : 1 ≤ fuel := by omega
        have := collisionLoop_none_head names base fuel (base ++ natToStr k) (k + 1) hf h
        simpa using this
      · exact ih _ _ h k (by omega) (by omega)
    · rw [if_neg hc] at h
      simp at h

theorem candidate_injective (base : String) :
    Function.Injective (fun k : Nat => base ++ natToStr k) := by
  intro a b h
  simp only at h
  exact natToStr_injective (string_append_left_cancel h)

theorem collisionLoop_found (names : List String) (base : String) :
    ∀ new i, collisionLoop names base (names.length + 2) new i ≠ none := by
  intro new i h
  have hmem : ∀ k, i ≤ k → k + 1 < i + (names.length + 2) → (base ++ natToStr k) ∈ names :=
    collisionLoop_none_mem names base _ new i h
  set cand : List String :=
    (List.range (names.length + 1)).map (fun t => base ++ natToStr (i + t)) with hcand
  have hnodup : cand.Nodup := by
    refine List.Nodup.map ?_ (List.nodup_range _)
    intro a b hab
    have := candidate_injective base hab
    omega
  have hsub : cand ⊆ names := by
    intro x hx
    rw [hcand] at hx
    obtain ⟨t, ht, rfl⟩ := List.mem_map.mp hx
    have ht2 : t < names.length + 1 := List.mem_range.mp ht
    exact hmem (i + t) (by omega) (by omega)
  have hlen : cand.length ≤ names.length := (List.Nodup.subperm hnodup hsub).length_le
  rw [hcand] at hlen
  simp at hlen

theorem translate_label_not_mem (names : List String) (label : String) :
    (translate_label names label).1 ∉ names := by
  unfold translate_label
  by_cases hc : names.contains (canonical_name label)
  · rw [if_pos hc]
    by_cases hd : isDigitStr (canonical_name label)
    · rw [if_pos hd]
      simp only
      cases hres : collisionLoop names ("KP_" ++ canonical_name label) (names.length + 2)
          ("KP_" ++ canonical_name label) 2 with
      | none => exact absurd hres (collisionLoop_found _ _ _ _)
      | some v =>
        simpa using collisionLoop_some_not_mem _ _ _ _ _ _ hres
    · rw [if_neg hd]
      simp only
      cases hres : collisionLoop names (canonical_name label) (names.length + 2)
          (canonical_name label ++ natToStr 2) 2 with
      | none => exact absurd hres (collisionLoop_found _ _ _ _)
      | some v =>
        simpa using collisionLoop_some_not_mem _ _ _ _ _ _ hres
  · rw [if_neg hc]
    simpa using hc

/-! ### Footprint Selector (`keyboard.py` lines 263-284) -/

/-- Exact rational value of the source literal `2.25`. -/
def q2_25 : ℚ := mkRat 9 4

/-- Exact rational value of the source literal `2.75`. -/
def q2_75 : ℚ := mkRat 11 4

/-- Exact rational value of the source literal `6.25`. -/
def q6_25 : ℚ := mkRat 25 4

/-- Exact rational value of the source literal `6.5`. -/
def q6_5 : ℚ := mkRat 13 2

theorem q2_25_eq : q2_25 = 2.25 := by norm_num [q2_25, mkRat, Rat.normalize]

theorem q2_75_eq : q2_75 = 2.75 := by norm_num [q2_75, mkRat, Rat.normalize]

theorem q6_25_eq : q6_25 = 6.25 := by norm_num [q6_25, mkRat, Rat.normalize]

theorem q6_5_eq : q6_5 = 6.5 := by norm_num [q6_5, mkRat, Rat.normalize]

/-- LED suffix logic of `switch_footprint` (lines 279-282): Python tests
`'-LED-' in footprint` and `'-RGBLED-' in footprint` in that order. -/
def ledAdjust (footprint : String) : String :=
  if listHasSub ("-LED-".data) footprint.data then footprint ++ "-LED"
  else if listHasSub ("-RGBLED-".data) footprint.data then footprint ++ "-RGB"
  else footprint

/-- Model of `Keyboard.switch_footprint` (lines 263-284).  `base` is the
configured `self._switch_footprint`; widths are exact rationals, mirroring the
exact float equality tests `key_width in [...]` of the source. -/
def switch_footprint (base : String) (key_width : ℚ) : String :=
  let footprint :=
    if key_width = 2 ∨ key_width = q2_25 ∨ key_width = q2_75 then base ++ "-2U"
    else if key_width = 4 then base ++ "-2U"
    else if key_width = q6_25 then base ++ "-6.25U"
    else if key_width = q6_5 then base ++ "-6.5U"
    else if key_width = 7 then base ++ "-7U"
    else base ++ "-1U"
  ledAdjust footprint

/-! ### Layout Parser (`keyboard.py` lines 286-311) -/

/-- One raw key record of the decoded grid handed over by the external
`KLE2xy` decoder (spec section 6: label text, numeric width, integer grid
column/row, x/y position in editor units). -/
structure KeyRecord where
  name : String
  width : ℚ
  column : Int
  row : Int
  x : ℚ
  y : ℚ
deriving DecidableEq

/-- Modelled from the spec: `KeyboardKey` lives in `keyboard_key.py`, which is
not under `src/`.  Per spec sections 3 and 4.4 it is an external collaborator
holding one key's identity, footprint and coordinates plus a non-owning
back-reference to the previously placed key; its rendering internals are out
of scope and no claim depends on them, so only the constructor arguments that
`parse_json` passes are recorded (the `next_key` placement descriptor is the
constant default in this code and is omitted). -/
structure KeyboardKey where
  name : String
  last_key : Option String
  switch_footprint : String
  coord : Int × Int
  coord_mm : ℚ × ℚ
deriving DecidableEq

/-- State of a `Keyboard` as far as the claims are concerned: the dict of keys
(`self`, in insertion order), `self.rows`, `self.max_col` and the parser's
`col_num` counter. -/
structure ParsedKeyboard where
  keys : List (String × KeyboardKey)
  rows : List (List String)
  max_col : Nat
  col_num : Nat
deriving DecidableEq

/-- Names of the keys inserted so far (the membership domain Python tests with
`key_name in self`). -/
def keyNames (kb : ParsedKeyboard) : List String := kb.keys.map Prod.fst

/-- Python dict assignment `self[key_name] = ...`: overwrite an existing entry
or append a fresh one. -/
def dictInsert (ks : List (String × KeyboardKey)) (n : String) (v : KeyboardKey) :
    List (String × KeyboardKey) :=
  if (ks.map Prod.fst).contains n then
    ks.map (fun p => if p.1 = n then (n, v) else p)
  else ks ++ [(n, v)]

/-- Inner loop of `parse_json` (`for key in row:`, lines 296-311): translate
the label, resolve the footprint, construct the `KeyboardKey`, insert it into
the dict, append its name to the current row (modelled by the accumulator
`acc`, appended to `rows` by `parseRows` when the row finishes, matching the
in-place `self.rows[-1].append` of the source), update `max_col` from
`col_num`, and reset `col_num` to 0.  Note the source never increments
`col_num`. -/
def parseKeys (base : String) : ParsedKeyboard → Option String → List String →
    List KeyRecord → ParsedKeyboard × Option String × List String
  | kb, lastk, acc, [] => (kb, lastk, acc)
  | kb, lastk, acc, k :: ks =>
    let key_name := (translate_label (keyNames kb) k.name).1
    let footprint := switch_footprint base k.width
    let newKey : KeyboardKey := ⟨key_name, lastk, footprint, (k.column, k.row), (k.x, k.y)⟩
    let kb2 : ParsedKeyboard :=
      { keys := dictInsert kb.keys key_name newKey
        rows := kb.rows
        max_col := if kb.col_num > kb.max_col then kb.col_num else kb.max_col
        col_num := 0 }
    parseKeys base kb2 (some key_name) (acc ++ [key_name]) ks

/-- Outer loop of `parse_json` (`for row in self.layout:`, lines 294-295):
start an empty row, process its keys, append the finished row. -/
def parseRows (base : String) : ParsedKeyboard → Option String →
    List (List KeyRecord) → ParsedKeyboard
  | kb, _, [] => kb
  | kb, lastk, row :: rest =>
    let res := parseKeys base kb lastk [] row
    parseRows base { res.1 with rows := res.1.rows ++ [res.2.2] } res.2.1 rest

/-- Model of `Keyboard.parse_json` (lines 286-311) run at construction on the
decoded grid, starting from the empty keyboard state of `__init__`. -/
def parse_json (layout : List (List KeyRecord)) (base : String) : ParsedKeyboard :=
  parseRows base ⟨[], [], 0, 0⟩ none layout

/-! ### Parser invariants -/

theorem parseKeys_counters (base : String) :
    ∀ row kb lastk acc, kb.max_col = 0 → kb.col_num = 0 →
      (parseKeys base kb lastk acc row).1.max_col = 0 ∧
      (parseKeys base kb lastk acc row).1.col_num = 0 := by
  intro row
  induction row with
  | nil => intro kb lastk acc h1 h2; exact ⟨h1, h2⟩
  | cons k ks ih =>
    intro kb lastk acc h1 h2
    rw [parseKeys]
    exact ih _ _ _ (by simp [h1, h2]) rfl

theorem parseRows_counters (base : String) :
    ∀ layout kb lastk, kb.max_col = 0 → kb.col_num = 0 →
      (parseRows base kb lastk layout).max_col = 0 ∧
      (parseRows base kb lastk layout).col_num = 0 := by
  intro layout
  induction layout with
  | nil => intro kb lastk h1 h2; exact ⟨h1, h2⟩
  | cons row rest ih =>
    intro kb lastk h1 h2
    rw [parseRows]
    obtain ⟨hm, hc⟩ := parseKeys_counters base row kb lastk [] h1 h2
    exact ih _ _ hm hc

/-- The parser never updates `max_col` away from 0: `col_num` is initialised
to 0, reset to 0 after every key, and never incremented, so the guarded
update `if col_num > self.max_col` never fires. -/
theorem parse_json_max_col (layout : List (List KeyRecord)) (base : String) :
    (parse_json layout base).max_col = 0 :=
  (parseRows_counters base layout ⟨[], [], 0, 0⟩ none rfl rfl).1

theorem dictInsert_names_of_not_mem (ks : List (String × KeyboardKey)) (n : String)
    (v : KeyboardKey) (h : n ∉ ks.map Prod.fst) :
    (dictInsert ks n v).map Prod.fst = ks.map Prod.fst ++ [n] := by
  unfold dictInsert
  rw [if_neg (by simpa using h)]
  simp

theorem parseKeys_names (base : String) :
    ∀ row kb lastk acc,
      keyNames kb = kb.rows.flatten ++ acc →
      (keyNames kb).Nodup →
      (parseKeys base kb lastk acc row).1.rows = kb.rows ∧
      keyNames (parseKeys base kb lastk acc row).1 =
        (parseKeys base kb lastk acc row).1.rows.flatten ++
          (parseKeys base kb lastk acc row).2.2 ∧
      (keyNames (parseKeys base kb lastk acc row).1).Nodup := by
  intro row
  induction row with
  | nil => intro kb lastk acc h1 h2; exact ⟨rfl, h1, h2⟩
  | cons k ks ih =>
    intro kb lastk acc h1 h2
    rw [parseKeys]
    have hfresh : (translate_label (keyNames kb) k.name).1 ∉ keyNames kb :=
      translate_label_not_mem (keyNames kb) k.name
    have hnames : keyNames
        { keys := dictInsert kb.keys ((translate_label (keyNames kb) k.name).1)
            ⟨(translate_label (keyNames kb) k.name).1, lastk, switch_footprint base k.width,
              (k.column, k.row), (k.x, k.y)⟩
          rows := kb.rows
          max_col := if kb.col_num > kb.max_col then kb.col_num else kb.max_col
          col_num := 0 } = keyNames kb ++ [(translate_label (keyNames kb) k.name).1] := by
      unfold keyNames
      exact dictInsert_names_of_not_mem kb.keys _ _ hfresh
    refine ih _ _ _ ?_ ?_
    · rw [hnames, h1]
      simp
    · rw [hnames]
      refine List.Nodup.append h2 (by simp) ?_
      simp only [List.disjoint_singleton]
      exact hfresh

theorem parseRows_names (base : String) :
    ∀ layout kb lastk,
      keyNames kb = kb.rows.flatten →
      (keyNames kb).Nodup →
      keyNames (parseRows base kb lastk layout) =
        (parseRows base kb lastk layout).rows.flatten ∧
      (keyNames (parseRows base kb lastk layout)).Nodup := by
  intro layout
  induction layout with
  | nil => intro kb lastk h1 h2; exact ⟨h1, h2⟩
  | cons row rest ih =>
    intro kb lastk h1 h2
    rw [parseRows]
    obtain ⟨hrows, hkeys, hnodup⟩ :=
      parseKeys_names base row kb lastk [] (by simpa using h1) h2
    refine ih _ _ ?_ (by simpa [keyNames] using hnodup)
    simp only [keyNames] at hkeys ⊢
    rw [hkeys]
    simp

/-- After parsing, the dict keys (in insertion order) are exactly the names
listed in the rows, in row-major order, and they are pairwise distinct. -/
theorem parse_json_names (layout : List (List KeyRecord)) (base : String) :
    keyNames (parse_json layout base) = (parse_json layout base).rows.flatten ∧
    (keyNames (parse_json layout base)).Nodup :=
  parseRows_names base layout ⟨[], [], 0, 0⟩ none rfl (by simp [keyNames])

/-! ### Column Topology Synthesizer (`keyboard.py` lines 164-256) -/

/-- Model of Python `list.pop(0)`. -/
def popFront {α : Type} : List α → Option (α × List α)
  | [] => none
  | x :: xs => some (x, xs)

/-- Model of Python `list.pop(-1)` (`list.pop()` from the right end). -/
def popBack {α : Type} (l : List α) : Option (α × List α) :=
  match l.reverse with
  | [] => none
  | x :: xs => some (x, xs.reverse)

/-- Python truthiness of an optional string (`if last_key:`): `None` and the
empty string are falsy. -/
def pyTruthyStr : Option String → Bool
  | none => false
  | some s => !s.data.isEmpty

/-- Python truthiness of an optional number (`if not row_position:`): `None`
and 0 are falsy. -/
def pyTruthyNat : Option Nat → Bool
  | none => false
  | some n => n != 0

/-- Registration `schematic_columns[row_position] = []` guarded by
`if row_position not in schematic_columns` (lines 209-211). -/
def colRegister (cols : List (Nat × List String)) (p : Nat) : List (Nat × List String) :=
  if (cols.map Prod.fst).contains p then cols else cols ++ [(p, [])]

/-- Append of one net-statement group to `schematic_columns[row_position]`
(line 220). -/
def colAppend (cols : List (Nat × List String)) (p : Nat) (net : String) :
    List (Nat × List String) :=
  cols.map (fun e => if e.1 = p then (e.1, e.2 ++ [net]) else e)

/-- The net-triplet emission of lines 213-237.  The entries popped from the
copied `self.rows` are key-name strings (they were appended at line 304 as
`self.rows[-1].append(key_name)`), and a Python `str` has no attribute
`column_pin_scr`, so evaluating `last_key.column_pin_scr[1]` at line 215
raises `AttributeError`.  The emission therefore never yields a string; it is
modelled as the exception it raises. -/
def netTriplet (_lastKeyName _keyName : String) : Except String String :=
  .error "AttributeError: str object has no attribute column_pin_scr"

/-- Mutable state shared across the whole traversal: the `row_positions` pool
and the two column dicts. -/
structure TraversalState where
  row_positions : List Nat
  schematic_columns : List (Nat × List String)
  board_columns : List (Nat × List String)
deriving DecidableEq

/-- The per-traversal-index local variables `key`, `last_key` and
`row_position` (reset at the top of the outer loop, line 190-191). -/
structure RowLoopVars where
  key : Option String
  last_key : Option String
  row_position : Option Nat
deriving DecidableEq

/-- One iteration of the inner `for row in rows:` loop (lines 193-239) for a
fixed traversal index parity.  The two `except IndexError: last_key = key;
continue` paths are the first two cases: a failed key pop leaves the row and
state untouched, and a failed `row_positions` pop (after the key was already
popped) records the popped key and moves on without registering a slot. -/
def rowStep (isEvenCol : Bool) (ts : TraversalState) (rl : RowLoopVars)
    (row : List String) :
    Except String (TraversalState × RowLoopVars × List String) :=
  match (if isEvenCol then popFront row else popBack row) with
  | none => .ok (ts, { rl with last_key := rl.key }, row)
  | some (k, rowRest) =>
    match (if pyTruthyNat rl.row_position then some (rl.row_position.getD 0, ts.row_positions)
           else (if isEvenCol then popFront ts.row_positions else popBack ts.row_positions)) with
    | none => .ok (ts, { key := some k, last_key := some k, row_position := rl.row_position },
        rowRest)
    | some (p, ps) =>
      let ts2 : TraversalState :=
        { row_positions := ps
          schematic_columns := colRegister ts.schematic_columns p
          board_columns := colRegister ts.board_columns p }
      if pyTruthyStr rl.last_key then
        match netTriplet (rl.last_key.getD "") k with
        | .error e => .error e
        | .ok net =>
          .ok ({ ts2 with schematic_columns := colAppend ts2.schematic_columns p net },
               { key := some k, last_key := some k, row_position := some p }, rowRest)
      else
        .ok (ts2, { key := some k, last_key := some k, row_position := some p }, rowRest)

/-- The inner loop over all rows for one traversal index; the rows list is
rebuilt in place, mirroring the in-place `row.pop` mutation of the source. -/
def rowsPass (isEvenCol : Bool) : TraversalState → RowLoopVars → List (List String) →
    Except String (TraversalState × RowLoopVars × List (List String))
  | ts, rl, [] => .ok (ts, rl, [])
  | ts, rl, row :: rest =>
    match rowStep isEvenCol ts rl row with
    | .error e => .error e
    | .ok (ts2, rl2, row2) =>
      match rowsPass isEvenCol ts2 rl2 rest with
      | .error e => .error e
      | .ok (ts3, rl3, rest3) => .ok (ts3, rl3, row2 :: rest3)

/-- The outer `for column in range(1, self.max_col + 1):` loop (line 189);
even traversal indices pop from the left ends, odd ones from the right. -/
def columnsPass : TraversalState → List (List String) → List Nat →
    Except String (TraversalState × List (List String))
  | ts, rows, [] => .ok (ts, rows)
  | ts, rows, c :: cs =>
    match rowsPass (c % 2 == 0) ts ⟨none, none, none⟩ rows with
    | .error e => .error e
    | .ok (ts2, _, rows2) => columnsPass ts2 rows2 cs

/-- The whole traversal of `column_scr` up to line 239, started on a deep copy
of `self.rows` with `row_positions = range(1, max_col + 1)`. -/
def runTraversal (kb : ParsedKeyboard) : Except String TraversalState :=
  match columnsPass ⟨List.range' 1 kb.max_col, [], []⟩ kb.rows (List.range' 1 kb.max_col) with
  | .error e => .error e
  | .ok (ts, _) => .ok ts

/-- The `sorted(schematic_columns)` iteration order of the renumber pass
(line 245): the dict keys in ascending order. -/
def sortedColumns (cols : List (Nat × List String)) : List Nat :=
  List.insertionSort (· ≤ ·) (cols.map Prod.fst)

/-- Dict access `schematic_columns[column]` / `board_columns[column]` in the
renumber pass; both dicts are always registered in lockstep (lines 209-211),
so the default branch is never taken there. -/
def colLookup (cols : List (Nat × List String)) (p : Nat) : List String :=
  match cols.lookup p with
  | some v => v
  | none => []

/-- Model of the `%` formatting `text % {'column': column}` (lines 246-249):
every occurrence of the placeholder `%(column)s` left by the first formatting
pass is replaced by the decimal rendering of the slot number. -/
def substColumn (s : String) (c : Nat) : String :=
  String.mk (replaceSub ("%(column)s".data) ((natToStr c).data) s.data)

/-- The renumber pass of `column_scr` (lines 241-249): walk the claimed slot
numbers in ascending order and re-emit each slot's joined net groups with the
slot number substituted for the column placeholder. -/
def renumberPass (sch brd : List (Nat × List String)) : List String × List String :=
  ((sortedColumns sch).map (fun c => substColumn (joinWith "\n" (colLookup sch c)) c),
   (sortedColumns sch).map (fun c => substColumn (joinWith "\n" (colLookup brd c)) c))

/-- Shift the leading decimal-digit run of a token by the fixed offset. -/
def shiftNumToken (t : List Char) : List Char :=
  let digitsPart := t.takeWhile Char.isDigit
  if digitsPart.isEmpty then t
  else (natToStr (digitsPart.foldl (fun acc c => 10 * acc + charDigit c) 0 + 30)).data ++
    t.drop digitsPart.length

/-- Shift one space-separated token of a coordinate-bearing line. -/
def shiftToken (t : List Char) : List Char :=
  match t with
  | '(' :: rest => '(' :: shiftNumToken rest
  | _ => shiftNumToken t

/-- Modelled from the spec: `translate_board_coords` lives in `functions.py`,
which is not under `src/`.  The spec describes it only as the
dialect-dependent coordinate-translation pass applied to the board fragment
for the `free` dialect (section 4.5 step 5, section 6); no formula is given.
It is modelled as a per-line pass that adds a fixed offset to the
parenthesised decimal coordinates of a line and leaves lines without a
coordinate pair — in particular the empty fragment — unchanged; the claims
settled here depend only on its action on fragments without coordinates. -/
def translate_board_coords (s : String) : String :=
  joinWith "\n" ((splitOnCharList '\n' s.data).map (fun l =>
    if l.contains '(' then
      String.mk (joinWith " " (((splitOnCharList ' ' l).map shiftToken).map String.mk)).data
    else String.mk l))

/-- Model of `Keyboard.column_scr` (lines 178-256): run the traversal, then
the renumber pass, join both fragment lists with newlines, and apply the
coordinate translation to the board fragment for the `free` dialect.  The
result pair is (`_column_schematic_scr`, `_column_board_scr`). -/
def column_scr (kb : ParsedKeyboard) (eagle_version : String) :
    Except String (String × String) :=
  match runTraversal kb with
  | .error e => .error e
  | .ok ts =>
    let lists := renumberPass ts.schematic_columns ts.board_columns
    let sch := joinWith "\n" lists.1
    let brd := joinWith "\n" lists.2
    let brd2 := if eagle_version = "free" then translate_board_coords brd else brd
    .ok (sch, brd2)

/-- The column slots claimed by the traversal (the keys of
`schematic_columns`), in registration order. -/
def column_slots (kb : ParsedKeyboard) : Except String (List Nat) :=
  match runTraversal kb with
  | .error e => .error e
  | .ok ts => .ok (ts.schematic_columns.map Prod.fst)

/-- The `column_board_scr` property (lines 171-176): the board component of
`column_scr`. -/
def column_board_scr (kb : ParsedKeyboard) (eagle_version : String) :
    Except String String :=
  match column_scr kb eagle_version with
  | .error e => .error e
  | .ok p => .ok p.2

/-! ### Column synthesis on a parsed keyboard -/

theorem runTraversal_of_max_col_zero (kb : ParsedKeyboard) (h : kb.max_col = 0) :
    runTraversal kb = .ok ⟨[], [], []⟩ := by
  unfold runTraversal
  rw [h]
  rfl

theorem translate_board_coords_empty : translate_board_coords "" = "" := rfl

theorem column_scr_of_max_col_zero (kb : ParsedKeyboard) (h : kb.max_col = 0)
    (ev : String) : column_scr kb ev = .ok ("", "") := by
  unfold column_scr
  rw [runTraversal_of_max_col_zero kb h]
  simp only [renumberPass, sortedColumns]
  by_cases hev : ev = "free" <;>
    simp [hev, joinWith, translate_board_coords_empty]

/-! ### Concrete grids used by the claims -/

/-- The 2-row, 2-column `Q W / A S` grid of the round-trip scenario. -/
def qwasLayout : List (List KeyRecord) :=
  [[⟨"Q", 1, 0, 0, 0, 0⟩, ⟨"W", 1, 1, 0, 1, 0⟩],
   [⟨"A", 1, 0, 1, 0, 1⟩, ⟨"S", 1, 1, 1, 1, 1⟩]]

/-- Two rows of one key each: a single intended electrical column holding two
vertically stacked keys. -/
def stackedLayout : List (List KeyRecord) :=
  [[⟨"A", 1, 0, 0, 0, 0⟩], [⟨"B", 1, 0, 1, 0, 1⟩]]

/-! ### Claims -/

/-- Claim C1: after parsing, `max_col` is supposed to equal the length of the
longest row.  It does not: the parser never increments `col_num` (it is
initialised to 0 at line 292 and reset to 0 at line 311, with no increment in
between), so the guarded update at lines 308-309 never fires and `max_col`
remains 0 for every input, while a one-key grid has longest-row length 1. -/
theorem C1_max_col_never_updated :
    (∀ (layout : List (List KeyRecord)) (base : String),
      (parse_json layout base).max_col = 0) ∧
    (parse_json [[⟨"Q", 1, 0, 0, 0, 0⟩]] "MX").rows.map List.length = [1] :=
  ⟨parse_json_max_col, by decide⟩

/-- Claim C2: the 4-key `Q W / A S` keyboard is supposed to produce exactly 2
column slots with one net-triplet each.  Because `max_col` is stuck at 0, the
traversal loop `range(1, max_col + 1)` never runs: the code claims no slot at
all and both column fragments are empty. -/
theorem C2_qwas_produces_no_column_slots :
    (parse_json qwasLayout "MX").rows = [["Q", "W"], ["A", "S"]] ∧
    column_slots (parse_json qwasLayout "MX") = .ok [] ∧
    column_scr (parse_json qwasLayout "MX") "standard" = .ok ("", "") :=
  ⟨by decide, rfl, rfl⟩

/-- Claim C3 (counterexample): an empty decoded grid does not fail fast; the
constructor parses it into a keyboard with no rows and no keys and script
generation succeeds, so the claimed configuration error never happens. -/
theorem C3_empty_grid_counterexample :
    parse_json [] "MX" = ⟨[], [], 0, 0⟩ ∧
    column_scr (parse_json [] "MX") "standard" = .ok ("", "") :=
  ⟨rfl, rfl⟩

/-- Claim C3 (amended): `Keyboard` construction performs no validation of the
decoded grid; an empty grid silently yields a keyboard with no rows and no
keys, and column-script generation succeeds with empty fragments for every
configuration. -/
theorem C3_empty_grid_silently_accepted :
    ∀ base ev : String,
      parse_json ([] : List (List KeyRecord)) base = ⟨[], [], 0, 0⟩ ∧
      keyNames (parse_json ([] : List (List KeyRecord)) base) = [] ∧
      column_scr (parse_json ([] : List (List KeyRecord)) base) ev = .ok ("", "") := by
  intro base ev
  exact ⟨rfl, rfl, column_scr_of_max_col_zero _ rfl ev⟩

/-- Claim C4: the per-slot invariant (nets = keys in slot minus 1 for slots
with at least 2 keys) presupposes that slots are produced; the code never
produces any.  Two stacked single-key rows should give one slot with one
net-triplet, but `max_col = 0` keeps the traversal from claiming any slot. -/
theorem C4_stacked_pair_produces_no_slots :
    (parse_json stackedLayout "MX").rows = [["A"], ["B"]] ∧
    column_slots (parse_json stackedLayout "MX") = .ok [] :=
  ⟨by decide, rfl⟩

/-- Claim C5: no two keys of a parsed keyboard share a canonical name: the
dict keys are exactly the row-major list of row entries and that list has no
duplicate, because `translate_label` always returns a name not yet present. -/
theorem C5_key_names_unique :
    ∀ (layout : List (List KeyRecord)) (base : String),
      ((parse_json layout base).rows.flatten).Nodup ∧
      keyNames (parse_json layout base) = (parse_json layout base).rows.flatten := by
  intro layout base
  obtain ⟨heq, hnodup⟩ := parse_json_names layout base
  exact ⟨heq ▸ hnodup, heq⟩

/-- Claim C10: the column board script is the empty string for every keyboard
and every dialect: the traversal never runs (`max_col = 0`), so no board slot
exists and the joined board fragment is empty; the `free`-dialect coordinate
translation maps the empty fragment to itself.  (Independently, the emission
code only ever appends net statements to `schematic_columns`, never to
`board_columns`.) -/
theorem C10_column_board_scr_always_empty :
    ∀ (layout : List (List KeyRecord)) (base ev : String),
      column_board_scr (parse_json layout base) ev = .ok "" := by
  intro layout base ev
  unfold column_board_scr
  rw [column_scr_of_max_col_zero _ (parse_json_max_col layout base) ev]

/-! ### Entry-point characterisations of the collision loop -/

theorem collisionLoop_numeric_entry (names : List String) (base : String) :
    ∀ fuel v, collisionLoop names base (fuel + 1) base 2 = some v →
      (v = base ∧ v ∉ names) ∨
      (base ∈ names ∧ ∃ j, 2 ≤ j ∧ v = base ++ natToStr j ∧ v ∉ names ∧
        ∀ k, 2 ≤ k → k < j → (base ++ natToStr k) ∈ names) := by
  intro fuel v h
  rw [collisionLoop] at h
  by_cases hc : names.contains base
  · rw [if_pos hc] at h
    obtain ⟨j, hj, hv, hnm, hmin⟩ := collisionLoop_core names base fuel 2 v h
    exact Or.inr ⟨by simpa using hc, j, hj, hv, hnm, hmin⟩
  · rw [if_neg hc] at h
    have hv : base = v := by simpa using h
    subst hv
    exact Or.inl ⟨rfl, by simpa using hc⟩

theorem collisionLoop_nonnumeric_entry (names : List String) (base : String) :
    ∀ fuel v, collisionLoop names base (fuel + 1) (base ++ natToStr 2) 2 = some v →
      ∃ j, 2 ≤ j ∧ v = base ++ natToStr j ∧ v ∉ names ∧
        ∀ k, 2 ≤ k → k < j → (base ++ natToStr k) ∈ names := by
  intro fuel v h
  rw [collisionLoop] at h
  by_cases hc : names.contains (base ++ natToStr 2)
  · rw [if_pos hc] at h
    exact collisionLoop_core names base fuel 2 v h
  · rw [if_neg hc] at h
    have hv : base ++ natToStr 2 = v := by simpa using h
    refine ⟨2, le_refl 2, hv.symm, ?_, ?_⟩
    · rw [← hv]; simpa using hc
    · intro k hk hkj; omega

/-- Claim C6: collision resolution.  A colliding purely numeric candidate is
prefixed with `KP_` and that prefixed name is the base of any further probing
(integer suffixes from 2 upwards); a colliding non-numeric candidate gets the
smallest free integer suffix starting at 2; the rename warning fires in both
cases, and the resulting name is free.  Concretely, a second key labelled `5`
becomes `KP_5` (never `52`), and a third becomes `KP_52`. -/
theorem C6_collision_renaming :
    (∀ (names : List String) (label : String),
      names.contains (canonical_name label) = true →
      isDigitStr (canonical_name label) = true →
      (translate_label names label).2 = true ∧
      (translate_label names label).1 ∉ names ∧
      (("KP_" ++ canonical_name label) ∉ names →
        (translate_label names label).1 = "KP_" ++ canonical_name label) ∧
      ((translate_label names label).1 = "KP_" ++ canonical_name label ∨
        (("KP_" ++ canonical_name label) ∈ names ∧
          ∃ j, 2 ≤ j ∧
            (translate_label names label).1 = ("KP_" ++ canonical_name label) ++ natToStr j ∧
            ∀ k, 2 ≤ k → k < j →
              (("KP_" ++ canonical_name label) ++ natToStr k) ∈ names))) ∧
    (∀ (names : List String) (label : String),
      names.contains (canonical_name label) = true →
      isDigitStr (canonical_name label) = false →
      (translate_label names label).2 = true ∧
      ∃ j, 2 ≤ j ∧
        (translate_label names label).1 = canonical_name label ++ natToStr j ∧
        (translate_label names label).1 ∉ names ∧
        ∀ k, 2 ≤ k → k < j → (canonical_name label ++ natToStr k) ∈ names) ∧
    translate_label ["5"] "5" = ("KP_5", true) ∧
    translate_label ["5", "KP_5"] "5" = ("KP_52", true) := by
  refine ⟨?_, ?_, by decide, by decide⟩
  · intro names label hc hd
    unfold translate_label
    rw [if_pos hc, if_pos hd]
    simp only
    cases hres : collisionLoop names ("KP_" ++ canonical_name label) (names.length + 2)
        ("KP_" ++ canonical_name label) 2 with
    | none => exact absurd hres (collisionLoop_found _ _ _ _)
    | some v =>
      have hentry := collisionLoop_numeric_entry names ("KP_" ++ canonical_name label)
        (names.length + 1) v hres
      simp only [Option.getD_some]
      rcases hentry with ⟨hv, hnm⟩ | ⟨hmem, j, hj, hv, hnm, hmin⟩
      · subst hv
        exact ⟨trivial, hnm, fun _ => rfl, Or.inl rfl⟩
      · refine ⟨trivial, hnm, fun hfree => absurd hmem hfree, Or.inr ⟨hmem, j, hj, hv, hmin⟩⟩
  · intro names label hc hd
    unfold translate_label
    rw [if_pos hc, if_neg (by simp [hd])]
    simp only
    cases hres : collisionLoop names (canonical_name label) (names.length + 2)
        (canonical_name label ++ natToStr 2) 2 with
    | none => exact absurd hres (collisionLoop_found _ _ _ _)
    | some v =>
      obtain ⟨j, hj, hv, hnm, hmin⟩ := collisionLoop_nonnumeric_entry names
        (canonical_name label) (names.length + 1) v hres
      exact ⟨trivial, j, hj, by simpa using hv, by simpa using hnm, hmin⟩

/-- Witness for C6: a second key labelled `5` on a keyboard that already has a
`5` is renamed (warning emitted) to a fresh name, and a second `a`-labelled
key on a keyboard with `A` and `A2` gets the smallest free suffix. -/
theorem C6_collision_renaming_witness :
    ((translate_label ["5"] "5").2 = true ∧ (translate_label ["5"] "5").1 ∉ ["5"]) ∧
    ((translate_label ["A", "A2"] "a").2 = true ∧
      ∃ j, 2 ≤ j ∧
        (translate_label ["A", "A2"] "a").1 = canonical_name "a" ++ natToStr j ∧
        (translate_label ["A", "A2"] "a").1 ∉ ["A", "A2"] ∧
        ∀ k, 2 ≤ k → k < j → (canonical_name "a" ++ natToStr k) ∈ ["A", "A2"]) := by
  have h1 := C6_collision_renaming.1 ["5"] "5" (by decide) (by decide)
  have h2 := C6_collision_renaming.2.1 ["A", "A2"] "a" (by decide) (by decide)
  exact ⟨⟨h1.1, h1.2.1⟩, h2⟩

/-- Claim C7: footprint selection is total on rational widths — widths 2,
2.25, 2.75 and 4 select the 2U bucket, 6.25/6.5/7 their exact buckets, and
every other width (including 1) falls back to the default 1U bucket, followed
in all cases by the LED suffix adjustment; being a total Lean function it
always returns a string. -/
theorem C7_switch_footprint_buckets :
    ∀ base : String,
      switch_footprint base 2 = ledAdjust (base ++ "-2U") ∧
      switch_footprint base 2.25 = ledAdjust (base ++ "-2U") ∧
      switch_footprint base 2.75 = ledAdjust (base ++ "-2U") ∧
      switch_footprint base 4 = ledAdjust (base ++ "-2U") ∧
      switch_footprint base 6.25 = ledAdjust (base ++ "-6.25U") ∧
      switch_footprint base 6.5 = ledAdjust (base ++ "-6.5U") ∧
      switch_footprint base 7 = ledAdjust (base ++ "-7U") ∧
      switch_footprint base 1 = ledAdjust (base ++ "-1U") ∧
      (∀ w : ℚ, w ∉ ([2, 2.25, 2.75, 4, 6.25, 6.5, 7] : List ℚ) →
        switch_footprint base w = ledAdjust (base ++ "-1U")) := by
  intro base
  refine ⟨?_, ?_, ?_, ?_, ?_, ?_, ?_, ?_, ?_⟩
  · simp [switch_footprint]
  · simp only [switch_footprint, q2_25_eq, q2_75_eq, q6_25_eq, q6_5_eq]
    norm_num
  · simp only [switch_footprint, q2_25_eq, q2_75_eq, q6_25_eq, q6_5_eq]
    norm_num
  · simp only [switch_footprint, q2_25_eq, q2_75_eq, q6_25_eq, q6_5_eq]
    norm_num
  · simp only [switch_footprint, q2_25_eq, q2_75_eq, q6_25_eq, q6_5_eq]
    norm_num
  · simp only [switch_footprint, q2_25_eq, q2_75_eq, q6_25_eq, q6_5_eq]
    norm_num
  · simp only [switch_footprint, q2_25_eq, q2_75_eq, q6_25_eq, q6_5_eq]
    norm_num
  · simp only [switch_footprint, q2_25_eq, q2_75_eq, q6_25_eq, q6_5_eq]
    norm_num
  · intro w hw
    simp only [List.mem_cons, List.not_mem_nil, or_false, not_or] at hw
    obtain ⟨h2, h225, h275, h4, h625, h65, h7⟩ := hw
    simp only [switch_footprint, q2_25_eq, q2_75_eq, q6_25_eq, q6_5_eq]
    rw [if_neg (by tauto), if_neg h4, if_neg h625, if_neg h65, if_neg h7]

/-- Witness for C7: an unlisted width such as 3 takes the default 1U bucket. -/
theorem C7_switch_footprint_buckets_witness :
    switch_footprint "MX" 3 = ledAdjust ("MX" ++ "-1U") :=
  (C7_switch_footprint_buckets "MX").2.2.2.2.2.2.2.2 3 (by norm_num)

/-- Claim C8: a key whose label is the literal `*` canonicalises to
`KP_ASTERISK` even though the symbol table maps `*` to `8`; absent a prior
key of that name the translated name is exactly `KP_ASTERISK` with no rename
warning. -/
theorem C8_asterisk_override :
    canonical_name "*" = "KP_ASTERISK" ∧
    key_translation.lookup "*" = some "8" ∧
    ∀ names : List String, names.contains "KP_ASTERISK" = false →
      translate_label names "*" = ("KP_ASTERISK", false) := by
  refine ⟨by decide, by decide, ?_⟩
  intro names h
  have hc : canonical_name "*" = "KP_ASTERISK" := by decide
  unfold translate_label
  rw [hc]
  simp only [h]
  rfl

/-- Witness for C8: on a keyboard already holding the table image `8` of `*`,
the label `*` still becomes `KP_ASTERISK`. -/
theorem C8_asterisk_override_witness :
    translate_label ["8"] "*" = ("KP_ASTERISK", false) :=
  C8_asterisk_override.2.2 ["8"] (by decide)

/-- Claim C9: the renumber pass of `column_scr` emits the accumulated slot
groups in strictly ascending slot order (regardless of the alternating order
in which the traversal claimed them), substituting each slot number into its
group's column placeholder. -/
theorem C9_columns_emitted_ascending :
    ∀ sch brd : List (Nat × List String),
      (sch.map Prod.fst).Nodup →
      List.Sorted (· < ·) (sortedColumns sch) ∧
      List.Perm (sortedColumns sch) (sch.map Prod.fst) ∧
      (renumberPass sch brd).1 =
        (sortedColumns sch).map (fun c => substColumn (joinWith "\n" (colLookup sch c)) c) := by
  intro sch brd h
  have hperm : List.Perm (sortedColumns sch) (sch.map Prod.fst) :=
    List.perm_insertionSort _ _
  have hsorted : List.Sorted (· ≤ ·) (sortedColumns sch) :=
    List.sorted_insertionSort _ _
  have hnodup : (sortedColumns sch).Nodup := hperm.nodup_iff.mpr h
  refine ⟨?_, hperm, rfl⟩
  have hand := List.Pairwise.and hsorted hnodup
  exact hand.imp (fun hab => lt_of_le_of_ne hab.1 hab.2)

/-- Witness for C9: a map whose slots were claimed in the order 3, 1 is
re-emitted in ascending slot order. -/
theorem C9_columns_emitted_ascending_witness :
    List.Sorted (· < ·)
      (sortedColumns [(3, ["NET COLUMN%(column)s (1 2) (3 4);"]), (1, [])]) ∧
    List.Perm (sortedColumns [(3, ["NET COLUMN%(column)s (1 2) (3 4);"]), (1, [])])
      (([(3, ["NET COLUMN%(column)s (1 2) (3 4);"]), (1, [])] :
        List (Nat × List String)).map Prod.fst) := by
  have h := C9_columns_emitted_ascending
    [(3, ["NET COLUMN%(column)s (1 2) (3 4);"]), (1, [])] [] (by decide)
  exact ⟨h.1, h.2.1⟩
